import Mathlib

/-!
Verification of the uplink serializer and tcpjson stream handler.

This file gives a shallow embedding, in Lean 4, of the core data
structures and operations of the uplink repository:

* the Metrics accumulator of src/uplink/src/base/serializer.rs,
* the DelayMap and StreamHandler of
  src/uplink/src/collector/tcpjson/util.rs,
* the serializer state machine of src/uplink/src/base/serializer.rs
  (normal, disk, catchup and crash modes together with
  write_to_storage and read_from_storage).

Machine integers (usize) are modelled as Int with explicit saturation
at 2 ^ 64 - 1; u32 counters as Nat reduced mod 2 ^ 32.  Stateful Rust
code becomes explicit state passing.  Interactions with the outside
world (the MQTT client, the collector channel, the disk backend of
the spool, wall-clock time, JSON encoding) are modelled as injected
event lists and outcome flags, so every definition is executable.
-/

set_option maxHeartbeats 1000000
set_option maxRecDepth 16000

/-! ## Machine-integer model -/

/-- Largest value of Rust usize on a 64-bit target. -/
def usizeMax : Int := 2 ^ 64 - 1

/-- Rust usize saturating_add. -/
def satAdd (a : Int) (n : Nat) : Int := min (a + n) usizeMax

/-- Rust usize saturating_sub. -/
def satSub (a : Int) (n : Nat) : Int := max (a - n) 0

/-! ## Metrics (serializer.rs)

Struct Metrics of src/uplink/src/base/serializer.rs with its methods.
The errors field is a Lean String standing for the Rust String; its
length stands for the byte length of the Rust string. -/

structure Metrics where
  topic : String
  sequence : Nat
  timestamp : Nat
  total_sent_size : Int
  total_disk_size : Int
  lost_segments : Nat
  errors : String
  error_count : Nat
deriving Repr, DecidableEq

def Metrics.new (topic : String) : Metrics :=
  { topic := topic, sequence := 0, timestamp := 0, total_sent_size := 0,
    total_disk_size := 0, lost_segments := 0, errors := "", error_count := 0 }

def Metrics.add_total_sent_size (m : Metrics) (size : Nat) : Metrics :=
  { m with total_sent_size := satAdd m.total_sent_size size }

def Metrics.add_total_disk_size (m : Metrics) (size : Nat) : Metrics :=
  { m with total_disk_size := satAdd m.total_disk_size size }

def Metrics.sub_total_disk_size (m : Metrics) (size : Nat) : Metrics :=
  { m with total_disk_size := satSub m.total_disk_size size }

def Metrics.increment_lost_segments (m : Metrics) : Metrics :=
  { m with lost_segments := m.lost_segments + 1 }

/-- Metrics::add_errors: bump error_count, then append the error text
followed by a separator, but only when the current length of the
errors string is not above 1024. -/
def Metrics.add_errors (m : Metrics) (error : String) (count : Nat) : Metrics :=
  let m1 := { m with error_count := m.error_count + count }
  if 1024 < m1.errors.length then m1
  else { m1 with errors := m1.errors ++ error ++ " | " }

/-- Metrics::next: stamp the wall clock, bump the sequence number,
serialize (the encoder enc stands for serde_json::to_vec), then clear
errors and lost_segments.  Returns the new state and the
(topic, payload) pair handed to the publisher. -/
def Metrics.tick (m : Metrics) (now : Nat) (enc : Metrics → List Nat) :
    Metrics × String × List Nat :=
  let m1 := { m with timestamp := now, sequence := (m.sequence + 1) % 2 ^ 32 }
  let payload := enc m1
  let m2 := { m1 with errors := "", lost_segments := 0 }
  (m2, m1.topic, payload)

/-! ## DelayQueue (tokio_util) and DelayMap (tcpjson/util.rs)

The tokio DelayQueue is modelled as a fresh-key allocator plus a list
of live (key, item, deadline) entries.  Its stream interface resolves
with the entry of earliest deadline and yields none when the queue is
empty. -/

structure DelayQueue (T : Type) where
  nextKey : Nat
  entries : List (Nat × T × Nat)
deriving Repr, DecidableEq

def DelayQueue.new {T : Type} : DelayQueue T := { nextKey := 0, entries := [] }

/-- DelayQueue::insert returns the key of the new entry. -/
def DelayQueue.insert {T : Type} (q : DelayQueue T) (item : T) (period : Nat) :
    Nat × DelayQueue T :=
  (q.nextKey, { nextKey := q.nextKey + 1, entries := q.entries ++ [(q.nextKey, item, period)] })

/-- DelayQueue::remove for a key handed out by insert. -/
def DelayQueue.removeKey {T : Type} (q : DelayQueue T) (key : Nat) : DelayQueue T :=
  { q with entries := q.entries.filter (fun e => e.1 ≠ key) }

/-- DelayQueue::reset replaces the deadline of the entry at key. -/
def DelayQueue.reset {T : Type} (q : DelayQueue T) (key : Nat) (period : Nat) : DelayQueue T :=
  { q with entries := q.entries.map (fun e => if e.1 = key then (e.1, e.2.1, period) else e) }

def DelayQueue.isEmpty {T : Type} (q : DelayQueue T) : Bool := q.entries.isEmpty

/-- Entry with the earliest deadline (first of the ties). -/
def earliest {T : Type} : List (Nat × T × Nat) → Option (Nat × T × Nat)
  | [] => none
  | e :: rest => some (rest.foldl (fun best x => if x.2.2 < best.2.2 then x else best) e)

/-- The stream interface of DelayQueue: resolve with the entry of
earliest deadline once it expires, or none when the queue is empty. -/
def DelayQueue.pop {T : Type} [DecidableEq T] (q : DelayQueue T) :
    Option ((Nat × T × Nat) × DelayQueue T) :=
  match earliest q.entries with
  | none => none
  | some e => some (e, q.removeKey e.1)

/-- DelayMap of src/uplink/src/collector/tcpjson/util.rs: a DelayQueue
together with a HashMap from item to queue key, modelled as an
association list. -/
structure DelayMap (T : Type) where
  queue : DelayQueue T
  map : List (T × Nat)
deriving Repr, DecidableEq

/-- HashMap::get on the association list. -/
def assocLookup {T : Type} [DecidableEq T] (m : List (T × Nat)) (item : T) : Option Nat :=
  (m.find? (fun e => e.1 = item)).map (fun e => e.2)

/-- HashMap::remove drops the binding of item. -/
def assocErase {T : Type} [DecidableEq T] (m : List (T × Nat)) (item : T) : List (T × Nat) :=
  m.filter (fun e => e.1 ≠ item)

/-- HashMap::insert replaces any previous binding of item. -/
def assocInsert {T : Type} [DecidableEq T] (m : List (T × Nat)) (item : T) (key : Nat) :
    List (T × Nat) :=
  (item, key) :: assocErase m item

def DelayMap.new {T : Type} : DelayMap T := { queue := DelayQueue.new, map := [] }

/-- DelayMap::remove: if the map holds a key for the item, take the
binding out of the map and remove the queue entry at that key. -/
def DelayMap.remove {T : Type} [DecidableEq T] (d : DelayMap T) (item : T) : DelayMap T :=
  match assocLookup d.map item with
  | some key => { queue := d.queue.removeKey key, map := assocErase d.map item }
  | none => d

/-- DelayMap::reset: the source calls self.map.remove(item), which
both looks the key up and deletes the binding from the map, and then
resets the queue entry at that key.  The binding is therefore gone
from the map afterwards while the queue entry stays live. -/
def DelayMap.reset {T : Type} [DecidableEq T] (d : DelayMap T) (item : T) (period : Nat) :
    DelayMap T :=
  match assocLookup d.map item with
  | some key => { queue := d.queue.reset key period, map := assocErase d.map item }
  | none => d

/-- DelayMap::insert: insert a new timeout in the queue and bind the
item to the fresh key in the map. -/
def DelayMap.insert {T : Type} [DecidableEq T] (d : DelayMap T) (item : T) (period : Nat) :
    DelayMap T :=
  let kq := d.queue.insert item period
  { queue := kq.2, map := assocInsert d.map item kq.1 }

/-- DelayMap::update: vacant entry inserts on not-remove and fails on
remove; occupied entry removes on remove and resets on not-remove.
Returns the updated map and the boolean result. -/
def DelayMap.update {T : Type} [DecidableEq T] (d : DelayMap T) (item : T) (period : Nat)
    (rmv : Bool) : DelayMap T × Bool :=
  match assocLookup d.map item with
  | none =>
    if rmv then (d, false)
    else
      let kq := d.queue.insert item period
      ({ queue := kq.2, map := assocInsert d.map item kq.1 }, true)
  | some key =>
    if rmv then ({ queue := d.queue.removeKey key, map := assocErase d.map item }, true)
    else ({ d with queue := d.queue.reset key period }, true)

/-- DelayMap::next: await the queue; on an expired entry, drop the
binding of the returned item from the map. -/
def DelayMap.next {T : Type} [DecidableEq T] (d : DelayMap T) : Option (T × DelayMap T) :=
  match d.queue.pop with
  | some eq => some (eq.1.2.1, { queue := eq.2, map := assocErase d.map eq.1.2.1 })
  | none => none

/-- DelayMap::is_empty forwards to the queue. -/
def DelayMap.is_empty {T : Type} (d : DelayMap T) : Bool := d.queue.isEmpty

/-- Deadline currently scheduled for an item: the map key looked up in
the queue entries. -/
def DelayMap.deadlineOf {T : Type} [DecidableEq T] (d : DelayMap T) (item : T) : Option Nat :=
  match assocLookup d.map item with
  | none => none
  | some key => (d.queue.entries.find? (fun e => e.1 = key)).map (fun e => e.2.2)

/-- Membership of an item in the key-to-deadline map. -/
def DelayMap.contains {T : Type} [DecidableEq T] (d : DelayMap T) (item : T) : Bool :=
  (assocLookup d.map item).isSome

/-! ## StreamHandler (tcpjson/util.rs)

Stream objects (crate::base::Stream) live outside the embedded
sources; a stream is represented by its name, and the outcome of
Stream::fill is injected per call, since handle_data only branches on
whether fill flushed, did not flush, or returned an error. -/

inductive FillOutcome : Type
  | flushed
  | notFlushed
  | errored
deriving Repr, DecidableEq

structure StreamHandler where
  streams : List String
  flush_handler : DelayMap String
  period : Nat
deriving Repr, DecidableEq

/-- StreamHandler::new with the streams configured at startup. -/
def StreamHandler.new (configStreams : List String) (period : Nat) : StreamHandler :=
  { streams := configStreams, flush_handler := DelayMap.new, period := period }

/-- The tail of handle_data after the target stream exists: send the
data onto the stream (outcome injected) and update the flush timers;
on a fill error, log and return. -/
def handleFill (h : StreamHandler) (name : String) (fill : FillOutcome) : StreamHandler :=
  match fill with
  | .errored => h
  | .flushed => { h with flush_handler := (h.flush_handler.update name h.period true).1 }
  | .notFlushed => { h with flush_handler := (h.flush_handler.update name h.period false).1 }

/-- StreamHandler::handle_data: select the target stream by name; for
an unknown name, when the number of live streams is above 20 log and
drop the payload, otherwise create a dynamic stream; then fill the
stream and update the flush timers. -/
def StreamHandler.handle_data (h : StreamHandler) (dataStream : String) (fill : FillOutcome) :
    StreamHandler :=
  if h.streams.contains dataStream then
    handleFill h dataStream fill
  else if 20 < h.streams.length then
    h
  else
    handleFill { h with streams := h.streams ++ [dataStream] } dataStream fill

/-- StreamHandler::next: take the earliest expired flush timer and
flush that stream; a flush error is only logged.  Returns none when no
timer resolves. -/
def StreamHandler.next (h : StreamHandler) : Option String × StreamHandler :=
  match h.flush_handler.next with
  | none => (none, h)
  | some sd => (some sd.1, { h with flush_handler := sd.2 })

/-- StreamHandler::is_empty forwards to the DelayMap. -/
def StreamHandler.is_empty (h : StreamHandler) : Bool := h.flush_handler.is_empty

/-! ## Publishes, packages and the storage spool (serializer.rs)

The Package trait exposes a topic, serialized bytes and an optional
anomaly pair.  The spool (the disk crate) is modelled by its spool
contents plus injected fault flags for the write, flush, reload and
read calls the serializer makes. -/

inductive QoS : Type
  | atMostOnce
  | atLeastOnce
  | exactlyOnce
deriving Repr, DecidableEq

structure Publish where
  topic : String
  qos : QoS
  retain : Bool
  payload : List Nat
  pkid : Nat
deriving Repr, DecidableEq

structure Package where
  topic : String
  payload : List Nat
  anomalies : Option (String × Nat)
deriving Repr, DecidableEq

structure Storage where
  spool : List Publish
  writeErr : Bool
  flushErr : Bool
  flushEvicts : Bool
  reloadErr : Bool
  readErr : Bool
deriving Repr, DecidableEq

/-- Serializer error enum; client errors carry no payload here since
the claims only distinguish the variants. -/
inductive SError : Type
  | collector
  | serde
  | io
  | client
  | missingPersistence
deriving Repr, DecidableEq

/-- get_payload: extract anomalies into metrics, then return the
topic, the byte length and the serialized payload. -/
def get_payload (data : Package) (m : Metrics) : (String × Nat × List Nat) × Metrics :=
  let m1 := match data.anomalies with
    | some ec => m.add_errors ec.1 ec.2
    | none => m
  ((data.topic, data.payload.length, data.payload), m1)

/-- write_to_storage: with no spool configured fail with
MissingPersistence; otherwise build a QoS-1 publish with pkid 1 from
the package and append it to the spool.  A failed packet write is
logged and swallowed before any metrics update; after a successful
write add the payload size to total_disk_size and account an evicted
segment from flush_on_overflow as a lost segment, logging and
swallowing a flush error. -/
def write_to_storage (data : Package) (m : Metrics) (storage : Option Storage) :
    Except SError (Metrics × Option Storage) :=
  match storage with
  | none => .error .missingPersistence
  | some s =>
    let pm := get_payload data m
    let publish : Publish :=
      { topic := pm.1.1, qos := .atLeastOnce, retain := false, payload := pm.1.2.2, pkid := 1 }
    if s.writeErr then
      .ok (pm.2, some s)
    else
      let s1 := { s with spool := s.spool ++ [publish] }
      let m2 := pm.2.add_total_disk_size pm.1.2.1
      if s1.flushErr then
        .ok (m2, some s1)
      else if s1.flushEvicts then
        .ok (m2.increment_lost_segments, some s1)
      else
        .ok (m2, some s1)

/-- read_from_storage: with no spool configured fail with
MissingPersistence; a reload error, end of data, a read error or an
oversized packet all yield none (the caller falls back to Normal);
otherwise hand out the next spooled publish. -/
def read_from_storage (storage : Option Storage) (maxPacketSize : Nat) :
    Except SError (Option Publish × Option Storage) :=
  match storage with
  | none => .error .missingPersistence
  | some s =>
    if s.reloadErr then .ok (none, some s)
    else
      match s.spool with
      | [] => .ok (none, some s)
      | p :: rest =>
        if s.readErr ∨ maxPacketSize < p.payload.length then .ok (none, some s)
        else .ok (some p, some { s with spool := rest })

/-! ## Serializer state machine (serializer.rs)

Status is the state tag moved between modes by Serializer::start.
The MQTT client and the collector channel are the environment: each
mode is embedded as a step or run function over injected events, with
rumqttc behaviour written into the model where the source relies on
it (try_publish hands the constructed publish request back inside a
TryRequest error when the outbound queue is full). -/

inductive Status : Type
  | normal
  | slowEventloop (p : Publish)
  | eventLoopReady
  | eventLoopCrash (p : Publish)
deriving Repr, DecidableEq

/-- Behaviour of one client.try_publish call, injected per event. -/
inductive ClientBehavior : Type
  | accept
  | queueFull
  | failOther
deriving Repr, DecidableEq

/-- The request enum of rumqttc, as matched by the serializer. -/
inductive Request : Type
  | publish (p : Publish)
  | other
deriving Repr, DecidableEq

/-- ClientError as matched by the serializer. -/
inductive ClientError : Type
  | tryRequest (r : Request)
  | otherErr
deriving Repr, DecidableEq

/-- client.try_publish: builds the publish request from its arguments
and, when the outbound queue is full, hands exactly that request back
inside a TryRequest error. -/
def try_publish (topic : String) (qos : QoS) (retain : Bool) (payload : List Nat)
    (b : ClientBehavior) : Option ClientError :=
  match b with
  | .accept => none
  | .queueFull => some (.tryRequest (.publish
      { topic := topic, qos := qos, retain := retain, payload := payload, pkid := 0 }))
  | .failOther => some .otherErr

/-- A parameter bundle recording one try_publish attempt. -/
structure TryCall where
  topic : String
  qos : QoS
  retain : Bool
  payload : List Nat
deriving Repr, DecidableEq

/-- One iteration of the select loop of Serializer::normal fires on a
received package or on the metrics ticker. -/
inductive NormalEvent : Type
  | data (pkg : Package)
  | tick (now : Nat)
deriving Repr, DecidableEq

/-- How one iteration of Serializer::normal ends. -/
inductive NormalResult : Type
  | continueLoop
  | slow (p : Publish)
  | fatal
  | unreachableRequest
deriving Repr, DecidableEq

/-- One iteration of the loop of Serializer::normal: extract topic,
size and payload from the event (get_payload for a package,
Metrics::next for a tick), try_publish it at QoS AtLeastOnce with
retain false, then add the payload size to total_sent_size on
success, return SlowEventloop around the reclaimed publish on a full
queue, and fail on any other client error.  Returns the attempted
call, the metrics after the iteration and the loop outcome. -/
def normalStep (ev : NormalEvent) (b : ClientBehavior) (enc : Metrics → List Nat)
    (m : Metrics) : TryCall × Metrics × NormalResult :=
  let tpm : String × Nat × List Nat × Metrics :=
    match ev with
    | .data pkg =>
      let pm := get_payload pkg m
      (pm.1.1, pm.1.2.1, pm.1.2.2, pm.2)
    | .tick now =>
      let mp := m.tick now enc
      (mp.2.1, mp.2.2.length, mp.2.2, mp.1)
  let call : TryCall :=
    { topic := tpm.1, qos := .atLeastOnce, retain := false, payload := tpm.2.2.1 }
  match try_publish tpm.1 .atLeastOnce false tpm.2.2.1 b with
  | none => (call, (tpm.2.2.2.add_total_sent_size tpm.2.1, .continueLoop))
  | some (.tryRequest (.publish p)) => (call, (tpm.2.2.2, .slow p))
  | some (.tryRequest .other) => (call, (tpm.2.2.2, .unreachableRequest))
  | some .otherErr => (call, (tpm.2.2.2, .fatal))

/-- One iteration of the select loop of Serializer::disk fires on a
received package or on completion of the pinned blocking publish. -/
inductive DiskEvent : Type
  | data (pkg : Package)
  | publishDone
deriving Repr, DecidableEq

/-- How one iteration of Serializer::disk ends. -/
inductive DiskResult : Type
  | continueLoop (m : Metrics) (s : Option Storage)
  | transition (st : Status) (m : Metrics) (s : Option Storage)
  | fatal (e : SError)
deriving Repr, DecidableEq

/-- One iteration of the loop of Serializer::disk: a received package
goes to the spool through write_to_storage (propagating its error with
the question mark operator); completion of the stalled publish returns
EventLoopReady. -/
def diskStep (ev : DiskEvent) (m : Metrics) (storage : Option Storage) : DiskResult :=
  match ev with
  | .data pkg =>
    match write_to_storage pkg m storage with
    | .ok ms => .continueLoop ms.1 ms.2
    | .error e => .fatal e
  | .publishDone => .transition .eventLoopReady m storage

/-- Environment events driving Serializer::catchup: a received
package, or resolution of the in-flight spooled publish (success,
reclaimed publish on an event-loop crash, or another client error). -/
inductive CatchupEvent : Type
  | data (pkg : Package)
  | sendOk
  | sendCrash
  | sendFatal
deriving Repr, DecidableEq

/-- Outcome of a catchup run over a finite event list. -/
inductive CatchupResult : Type
  | finished (st : Status) (m : Metrics) (s : Option Storage)
  | running (inflight : Publish) (m : Metrics) (s : Option Storage)
  | fatal (e : SError)
deriving Repr, DecidableEq

/-- The select loop of Serializer::catchup over a finite list of
events while a publish loaded from the spool is in flight: a received
package is written to the spool; on a successful send the next
spooled publish is loaded (none sends the machine to Normal) and its
payload size is moved from total_disk_size to total_sent_size before
it is sent; a reclaimed publish sends the machine to EventLoopCrash;
any other client error is fatal. -/
def catchupLoop (maxPacketSize : Nat) (inflight : Publish) (m : Metrics)
    (storage : Option Storage) : List CatchupEvent → CatchupResult
  | [] => .running inflight m storage
  | ev :: rest =>
    match ev with
    | .data pkg =>
      match write_to_storage pkg m storage with
      | .ok ms => catchupLoop maxPacketSize inflight ms.1 ms.2 rest
      | .error e => .fatal e
    | .sendOk =>
      match read_from_storage storage maxPacketSize with
      | .error e => .fatal e
      | .ok (none, s1) => .finished .normal m s1
      | .ok (some p, s1) =>
        let payload_size := p.payload.length
        let m1 := (m.sub_total_disk_size payload_size).add_total_sent_size payload_size
        catchupLoop maxPacketSize p m1 s1 rest
    | .sendCrash => .finished (.eventLoopCrash inflight) m storage
    | .sendFatal => .fatal .client

/-- Serializer::catchup: load the first publish from the spool (none
sends the machine straight to Normal), then run the select loop on the
injected events. -/
def catchup (maxPacketSize : Nat) (m : Metrics) (storage : Option Storage)
    (events : List CatchupEvent) : CatchupResult :=
  match read_from_storage storage maxPacketSize with
  | .error e => .fatal e
  | .ok (none, s1) => .finished .normal m s1
  | .ok (some p, s1) => catchupLoop maxPacketSize p m s1 events

/-- The receive-and-write loop of Serializer::crash over a finite
list of received packages, propagating any write_to_storage error. -/
def crashLoop (m : Metrics) (storage : Option Storage) :
    List Package → Except SError (Metrics × Option Storage)
  | [] => .ok (m, storage)
  | pkg :: rest =>
    match write_to_storage pkg m storage with
    | .ok ms => crashLoop ms.1 ms.2 rest
    | .error e => .error e

/-- Serializer::crash: set pkid 1 on the stalled publish, then write
every package received from the collector to the spool; the loop only
ends when the injected package list runs out (the collector channel in
the source only ends the loop by a receive error). -/
def crashRun (publish : Publish) (incoming : List Package) (m : Metrics)
    (storage : Option Storage) : Except SError (Metrics × Option Storage) :=
  let _publish1 := { publish with pkid := 1 }
  crashLoop m storage incoming

/-! ## Theorems -/

/-- Claim C10: DelayMap::next is total at the public interface: on an
empty DelayMap it returns none rather than suspending or panicking,
and StreamHandler::next likewise returns none with all streams left
unflushed and the handler unchanged when no flush timeout is
pending. -/
theorem C10_next_total (d : DelayMap String) (h : StreamHandler)
    (hd : d.is_empty = true) (hh : h.is_empty = true) :
    d.next = none ∧ h.next = (none, h) := by
  have hde : d.queue.entries = [] := by
    cases hq : d.queue.entries with
    | nil => rfl
    | cons a l =>
      simp [DelayMap.is_empty, DelayQueue.isEmpty, hq] at hd
  have hdn : d.next = none := by
    simp [DelayMap.next, DelayQueue.pop, earliest, hde]
  have hfe : h.flush_handler.queue.entries = [] := by
    cases hq : h.flush_handler.queue.entries with
    | nil => rfl
    | cons a l =>
      simp [StreamHandler.is_empty, DelayMap.is_empty, DelayQueue.isEmpty, hq] at hh
  have hfn : h.flush_handler.next = none := by
    simp [DelayMap.next, DelayQueue.pop, earliest, hfe]
  refine ⟨hdn, ?_⟩
  simp [StreamHandler.next, hfn]

/-- Witness for C10 on a fresh DelayMap and a StreamHandler with no
pending flush timeouts. -/
theorem C10_next_total_witness :
    (DelayMap.new : DelayMap String).is_empty = true ∧
    (StreamHandler.new ["metrics"] 10).is_empty = true ∧
    ((DelayMap.new : DelayMap String).next = none ∧
      (StreamHandler.new ["metrics"] 10).next = (none, StreamHandler.new ["metrics"] 10)) :=
  ⟨rfl, rfl, C10_next_total DelayMap.new (StreamHandler.new ["metrics"] 10) rfl rfl⟩

/-- The DelayMap reached by inserting the key a and then resetting it. -/
def resetExample : DelayMap String := ((DelayMap.new).insert "a" 10).reset "a" 7

/-- Claim C5 is a code bug: DelayMap::reset deletes the binding from
the key-to-deadline map (the source calls map.remove where its own
reset-if-it-exists comment and the reset arm of update need a lookup)
while the queue entry stays live.  After insert then reset, the map is
empty while is_empty still reports false, remove of the key is a
no-op, and next still hands the key out afterwards, against the
claimed invariants. -/
theorem C5_reset_code_bug :
    resetExample.map = [] ∧
    resetExample.is_empty = false ∧
    resetExample.remove "a" = resetExample ∧
    ((resetExample.remove "a").next).map Prod.fst = some "a" := by decide

/-- The 21 distinct dynamic stream names fed to the handler. -/
def capNames : List String := (List.range 21).map (fun n => "s" ++ toString n)

/-- The StreamHandler reached from an empty handler after handle_data
on each of the 21 names (none of the fills flushes). -/
def capHandler : StreamHandler :=
  capNames.foldl (fun h n => h.handle_data n .notFlushed) (StreamHandler.new [] 10)

/-- Claim C1 is a code bug: handle_data creates a dynamic stream
whenever the live stream count is at most 20 (the guard in the source
reads greater-than 20), so feeding 21 distinct unknown stream names
to an empty handler leaves 21 live streams, while the claimed
invariant, and the max-20-streams error message of the source itself,
bound the live streams by 20. -/
theorem C1_stream_cap_code_bug :
    (StreamHandler.new [] 10).streams.length = 0 ∧
    capHandler.streams.length = 21 := by decide

/-- A 2000-character error description. -/
def bigErr : String := String.mk (List.replicate 2000 'a')

/-- Counterexample to claim C7 as stated: a single add_errors call on
fresh metrics with a 2000-character error string leaves an errors
string of 2003 characters, above the claimed 1024 bound. -/
theorem C7_errors_counterexample :
    1024 < ((Metrics.new "t").add_errors bigErr 1).errors.length := by
  have hbig : bigErr.length = 2000 := by
    show (List.replicate 2000 'a').length = 2000
    simp
  have h3 : (" | " : String).length = 3 := rfl
  simp [Metrics.add_errors, Metrics.new, String.length_append, hbig, h3]

/-- Metrics after a sequence of add_errors calls. -/
def applyErrors (m : Metrics) (calls : List (String × Nat)) : Metrics :=
  calls.foldl (fun acc c => acc.add_errors c.1 c.2) m

/-- Claim C7 amended: add_errors appends only while the errors string
is at most 1024 characters long, so when every error string of the
sequence is at most L characters the length never exceeds
1024 + L + 3; the stated 1024 bound itself can be overshot by one
final append. -/
theorem C7_errors_bound (calls : List (String × Nat)) (L : Nat) (m : Metrics)
    (hL : ∀ c ∈ calls, c.1.length ≤ L) (hm : m.errors.length ≤ 1024 + L + 3) :
    (applyErrors m calls).errors.length ≤ 1024 + L + 3 := by
  induction calls generalizing m with
  | nil => simpa [applyErrors] using hm
  | cons c rest ih =>
    have hc : c.1.length ≤ L := hL c (by simp)
    have hrest : ∀ x ∈ rest, x.1.length ≤ L := fun x hx => hL x (by simp [hx])
    have hstep : (m.add_errors c.1 c.2).errors.length ≤ 1024 + L + 3 := by
      unfold Metrics.add_errors
      by_cases h : 1024 < m.errors.length
      · simpa [h] using hm
      · have h3 : (" | " : String).length = 3 := rfl
        simp only [h, if_false]
        simp only [String.length_append, h3]
        omega
    simpa [applyErrors] using ih (m.add_errors c.1 c.2) hrest hstep

/-- Witness for C7 amended: two concrete calls with error strings of
at most 5 characters keep the errors string within 1032 characters. -/
theorem C7_errors_bound_witness :
    (applyErrors (Metrics.new "t") [("abc", 1), ("de", 2)]).errors.length ≤ 1024 + 5 + 3 :=
  C7_errors_bound [("abc", 1), ("de", 2)] 5 (Metrics.new "t") (by decide) (by decide)

/-! ### Metrics accumulator claims -/

/-- The operations a serializer run performs on its Metrics. -/
inductive MetricsOp : Type
  | addSent (n : Nat)
  | addDisk (n : Nat)
  | subDisk (n : Nat)
  | incLost
  | addErrs (e : String) (c : Nat)
  | tick (now : Nat)
deriving Repr, DecidableEq

def Metrics.applyOp (enc : Metrics → List Nat) (m : Metrics) : MetricsOp → Metrics
  | .addSent n => m.add_total_sent_size n
  | .addDisk n => m.add_total_disk_size n
  | .subDisk n => m.sub_total_disk_size n
  | .incLost => m.increment_lost_segments
  | .addErrs e c => m.add_errors e c
  | .tick now => (m.tick now enc).1

def Metrics.applyOps (enc : Metrics → List Nat) (m : Metrics) (ops : List MetricsOp) : Metrics :=
  ops.foldl (Metrics.applyOp enc) m

/-- Both size accumulators stay inside the usize range. -/
def sizeInv (m : Metrics) : Prop :=
  0 ≤ m.total_sent_size ∧ m.total_sent_size ≤ usizeMax ∧
  0 ≤ m.total_disk_size ∧ m.total_disk_size ≤ usizeMax

theorem sizeInv_step (enc : Metrics → List Nat) (m : Metrics) (op : MetricsOp)
    (h : sizeInv m) :
    sizeInv (m.applyOp enc op) ∧
    m.total_sent_size ≤ (m.applyOp enc op).total_sent_size := by
  obtain ⟨h1, h2, h3, h4⟩ := h
  have hmax : (0 : Int) ≤ usizeMax := by decide
  cases op with
  | addSent n =>
    have hn : (0 : Int) ≤ (n : Int) := Int.ofNat_nonneg n
    simp only [Metrics.applyOp, Metrics.add_total_sent_size, satAdd, sizeInv]
    constructor
    · constructor
      · exact le_min (by omega) hmax
      · exact ⟨min_le_right _ _, h3, h4⟩
    · exact le_min (by omega) h2
  | addDisk n =>
    have hn : (0 : Int) ≤ (n : Int) := Int.ofNat_nonneg n
    simp only [Metrics.applyOp, Metrics.add_total_disk_size, satAdd, sizeInv]
    exact ⟨⟨h1, h2, le_min (by omega) hmax, min_le_right _ _⟩, le_refl _⟩
  | subDisk n =>
    have hn : (0 : Int) ≤ (n : Int) := Int.ofNat_nonneg n
    simp only [Metrics.applyOp, Metrics.sub_total_disk_size, satSub, sizeInv]
    exact ⟨⟨h1, h2, le_max_right _ _, max_le (by omega) hmax⟩, le_refl _⟩
  | incLost =>
    exact ⟨⟨h1, h2, h3, h4⟩, le_refl _⟩
  | addErrs e c =>
    constructor
    · simp only [Metrics.applyOp, Metrics.add_errors, sizeInv]
      split <;> exact ⟨h1, h2, h3, h4⟩
    · simp only [Metrics.applyOp, Metrics.add_errors]
      split <;> exact le_refl _
  | tick now =>
    exact ⟨⟨h1, h2, h3, h4⟩, le_refl _⟩

/-- Claim C8: under every sequence of Metrics operations starting from
a state whose size accumulators are inside the usize range,
total_sent_size is monotonically non-decreasing, and both
total_sent_size and total_disk_size stay inside the range: in
particular total_disk_size never goes below 0 under arbitrary
interleavings of add_total_disk_size and sub_total_disk_size, and
neither accumulator wraps on overflow or underflow, both being
clamped to the saturating bounds. -/
theorem C8_metrics_saturating (enc : Metrics → List Nat) (ops : List MetricsOp) (m : Metrics)
    (h : sizeInv m) :
    sizeInv (m.applyOps enc ops) ∧
    m.total_sent_size ≤ (m.applyOps enc ops).total_sent_size := by
  induction ops generalizing m with
  | nil => exact ⟨h, le_refl _⟩
  | cons op rest ih =>
    obtain ⟨hstep, hmono⟩ := sizeInv_step enc m op h
    obtain ⟨hinv, hmono2⟩ := ih (m.applyOp enc op) hstep
    exact ⟨by simpa [Metrics.applyOps] using hinv,
      le_trans hmono (by simpa [Metrics.applyOps] using hmono2)⟩

/-- Witness for C8: a concrete interleaving that saturates the
subtraction of total_disk_size at 0 from fresh metrics. -/
theorem C8_metrics_saturating_witness :
    sizeInv ((Metrics.new "t").applyOps (fun _ => [])
      [.addSent 7, .addDisk 3, .subDisk 10, .incLost, .tick 1]) ∧
    (Metrics.new "t").total_sent_size ≤
      ((Metrics.new "t").applyOps (fun _ => [])
        [.addSent 7, .addDisk 3, .subDisk 10, .incLost, .tick 1]).total_sent_size :=
  C8_metrics_saturating (fun _ => []) [.addSent 7, .addDisk 3, .subDisk 10, .incLost, .tick 1]
    (Metrics.new "t") (by constructor <;> decide)

/-- Claim C4: in Serializer::normal every received Package and every
metrics tick is attempted through non-blocking try_publish at QoS
AtLeastOnce with retain false (the attempted call is the same bundle
whatever the client does); on success the payload size is added to
total_sent_size and the loop continues; when the outbound queue is
full the loop returns SlowEventloop around exactly the publish that
was attempted; any other client error makes normal return a fatal
error. -/
theorem C4_normal_step (ev : NormalEvent) (enc : Metrics → List Nat) (m : Metrics) :
    (normalStep ev .accept enc m).1 = (normalStep ev .queueFull enc m).1 ∧
    (normalStep ev .queueFull enc m).1 = (normalStep ev .failOther enc m).1 ∧
    (normalStep ev .accept enc m).1.qos = .atLeastOnce ∧
    (normalStep ev .accept enc m).1.retain = false ∧
    (normalStep ev .accept enc m).2.1 =
      ((normalStep ev .failOther enc m).2.1).add_total_sent_size
        ((normalStep ev .accept enc m).1.payload.length) ∧
    (normalStep ev .accept enc m).2.2 = .continueLoop ∧
    (normalStep ev .queueFull enc m).2.1 = (normalStep ev .failOther enc m).2.1 ∧
    (normalStep ev .queueFull enc m).2.2 = .slow
      { topic := (normalStep ev .queueFull enc m).1.topic, qos := .atLeastOnce,
        retain := false, payload := (normalStep ev .queueFull enc m).1.payload, pkid := 0 } ∧
    (normalStep ev .failOther enc m).2.2 = .fatal := by
  cases ev with
  | data pkg =>
    refine ⟨rfl, rfl, rfl, rfl, ?_, rfl, rfl, rfl, rfl⟩
    simp [normalStep, try_publish, get_payload]
  | tick now =>
    refine ⟨rfl, rfl, rfl, rfl, ?_, rfl, rfl, rfl, rfl⟩
    simp [normalStep, try_publish, Metrics.tick]

/-- A package for the spool-error scenarios. -/
def pkgX : Package := { topic := "t", payload := [1], anomalies := none }

/-- A configured spool whose packet write fails. -/
def stWriteErr : Storage :=
  { spool := [], writeErr := true, flushErr := false, flushEvicts := false,
    reloadErr := false, readErr := false }

/-- Counterexample to claim C3 as stated: a spool write error during
disk mode is logged and swallowed, and the select loop just continues
in disk mode; the iteration outcome is continueLoop, not a transition
of the state machine to Normal. -/
theorem C3_write_error_counterexample :
    diskStep (.data pkgX) (Metrics.new "m") (some stWriteErr) =
      .continueLoop (Metrics.new "m") (some stWriteErr) ∧
    DiskResult.continueLoop (Metrics.new "m") (some stWriteErr) ≠
      .transition .normal (Metrics.new "m") (some stWriteErr) := by decide

/-- Claim C3 amended: with a spool configured, write_to_storage and
read_from_storage return Ok in every spool-error case, so spool I/O
errors are never propagated out of the serializer; a spool read or
reload error makes catchup fall back to Normal with metrics and spool
state untouched; a spool write error is only logged and swallowed,
the serializer staying in its current mode. -/
theorem C3_spool_errors_swallowed :
    (∀ pkg m s, ∃ r, write_to_storage pkg m (some s) = .ok r) ∧
    (∀ s mps, ∃ r, read_from_storage (some s) mps = .ok r) ∧
    (∀ mps m s events, s.reloadErr = true ∨ s.readErr = true →
      catchup mps m (some s) events = .finished .normal m (some s)) := by
  refine ⟨?_, ?_, ?_⟩
  · intro pkg m s
    simp only [write_to_storage]
    split
    · exact ⟨_, rfl⟩
    · split
      · exact ⟨_, rfl⟩
      · split
        · exact ⟨_, rfl⟩
        · exact ⟨_, rfl⟩
  · intro s mps
    simp only [read_from_storage]
    split
    · exact ⟨_, rfl⟩
    · split
      · exact ⟨_, rfl⟩
      · split
        · exact ⟨_, rfl⟩
        · exact ⟨_, rfl⟩
  · intro mps m s events h
    cases hrl : s.reloadErr with
    | true => simp [catchup, read_from_storage, hrl]
    | false =>
      have hre : s.readErr = true := by
        rcases h with h | h
        · rw [hrl] at h
          exact absurd h (by simp)
        · exact h
      cases hsp : s.spool with
      | nil => simp [catchup, read_from_storage, hrl, hsp]
      | cons p rest => simp [catchup, read_from_storage, hrl, hsp, hre]

/-- A configured spool whose segment reload fails. -/
def stReloadErr : Storage :=
  { spool := [], writeErr := false, flushErr := false, flushEvicts := false,
    reloadErr := true, readErr := false }

/-- Witness for C3 amended: a reload error at the start of catchup
sends the machine to Normal with metrics and spool untouched. -/
theorem C3_spool_errors_swallowed_witness :
    catchup 100 (Metrics.new "t") (some stReloadErr) [] =
      .finished .normal (Metrics.new "t") (some stReloadErr) :=
  C3_spool_errors_swallowed.2.2 100 (Metrics.new "t") stReloadErr [] (Or.inl rfl)

/-- A spooled publish of payload size 5. -/
def pub5 : Publish :=
  { topic := "t", qos := .atLeastOnce, retain := false, payload := [1, 2, 3, 4, 5], pkid := 1 }

/-- A fault-free spool holding the one publish. -/
def stOneRecord : Storage :=
  { spool := [pub5], writeErr := false, flushErr := false, flushEvicts := false,
    reloadErr := false, readErr := false }

/-- Metrics accounting the 5 spooled bytes. -/
def mFive : Metrics := { Metrics.new "m" with total_disk_size := 5 }

/-- Counterexample to claim C2 as stated: a full catchup drain of a
spool holding one record of payload size 5 ends in Normal with the
spool empty, yet total_disk_size still reads 5 and total_sent_size 0:
the size of the completed first publish is never subtracted from
total_disk_size (the claimed every-record-exactly-once accounting
would end at 0). -/
theorem C2_catchup_counterexample :
    catchup 1000 mFive (some stOneRecord) [.sendOk] =
      .finished .normal mFive (some { stOneRecord with spool := [] }) ∧
    mFive.total_disk_size = 5 ∧ mFive.total_sent_size = 0 := by decide

/-- Sum of the payload sizes of a list of publishes. -/
def paySum (l : List Publish) : Int := (l.map fun p => (p.payload.length : Int)).sum

theorem paySum_nonneg (l : List Publish) : 0 ≤ paySum l := by
  refine List.sum_nonneg ?_
  intro x hx
  obtain ⟨q, hq, rfl⟩ := List.mem_map.1 hx
  exact Int.ofNat_nonneg _



/-- One sendOk iteration of the catchup select loop, unfolded. -/
theorem catchupLoop_sendOk (maxps : Nat) (inflight : Publish) (m : Metrics)
    (st : Option Storage) (evs : List CatchupEvent) :
    catchupLoop maxps inflight m st (.sendOk :: evs) =
      match read_from_storage st maxps with
      | .error e => .fatal e
      | .ok (none, s1) => .finished .normal m s1
      | .ok (some p, s1) =>
        catchupLoop maxps p
          ((m.sub_total_disk_size p.payload.length).add_total_sent_size p.payload.length)
          s1 evs := rfl

/-- Draining the select loop of catchup with no concurrent collector
data and every send succeeding: each remaining spool record is loaded
in order, its payload size moved from total_disk_size to
total_sent_size when the previous publish completes, and the run ends
in Normal on the empty spool. -/
theorem catchupLoop_drain (maxps : Nat) (rest : List Publish) (inflight : Publish)
    (m : Metrics) (sp : Storage) (hrl : sp.reloadErr = false) (hre : sp.readErr = false)
    (hsz : ∀ p ∈ rest, p.payload.length ≤ maxps)
    (hdisk : paySum rest ≤ m.total_disk_size)
    (hsent : m.total_sent_size + paySum rest ≤ usizeMax) :
    catchupLoop maxps inflight m (some { sp with spool := rest })
      (List.replicate (rest.length + 1) CatchupEvent.sendOk) =
    .finished .normal
      { m with total_disk_size := m.total_disk_size - paySum rest,
               total_sent_size := m.total_sent_size + paySum rest }
      (some { sp with spool := [] }) := by
  induction rest generalizing m inflight with
  | nil =>
    obtain ⟨tp, sq, ts, sent, disk, lost, errs, ec⟩ := m
    simp [List.replicate, catchupLoop, read_from_storage, hrl, paySum]
  | cons p rs ih =>
    have hplen : p.payload.length ≤ maxps := hsz p (by simp)
    have hrs : ∀ q ∈ rs, q.payload.length ≤ maxps := fun q hq => hsz q (by simp [hq])
    have hrsnn : 0 ≤ paySum rs := paySum_nonneg rs
    have hsum : paySum (p :: rs) = (p.payload.length : Int) + paySum rs := by
      simp [paySum]
    rw [hsum] at hdisk hsent
    have hsub : satSub m.total_disk_size p.payload.length =
        m.total_disk_size - p.payload.length := by
      unfold satSub
      rw [max_eq_left]
      omega
    have haddS : satAdd m.total_sent_size p.payload.length =
        m.total_sent_size + p.payload.length := by
      unfold satAdd
      rw [min_eq_left]
      omega
    have hstep :
        (m.sub_total_disk_size p.payload.length).add_total_sent_size p.payload.length =
        { m with total_disk_size := m.total_disk_size - p.payload.length,
                 total_sent_size := m.total_sent_size + p.payload.length } := by
      simp [Metrics.sub_total_disk_size, Metrics.add_total_sent_size, hsub, haddS]
    have hread : read_from_storage (some { sp with spool := p :: rs }) maxps =
        .ok (some p, some { sp with spool := rs }) := by
      simp only [read_from_storage]
      simp only [hrl, Bool.false_eq_true, if_false, hre, false_or]
      rw [if_neg (not_lt.2 hplen)]
    rw [List.length_cons, List.replicate_succ, catchupLoop_sendOk, hread]
    dsimp only
    rw [hstep]
    have ihx := ih p
      { m with total_disk_size := m.total_disk_size - p.payload.length,
               total_sent_size := m.total_sent_size + p.payload.length }
      hrs (by dsimp only; omega) (by dsimp only; omega)
    rw [ihx]
    obtain ⟨tp, sq, ts, sent, disk, lost, errs, ec⟩ := m
    rw [hsum, sub_sub, add_assoc]

/-- Claim C2 amended: in a fault-free full drain of the spool by
catchup (no concurrent collector data, every send succeeding), it is
the next record loaded after a completed publish whose payload size
is moved from total_disk_size to total_sent_size, before it is sent:
over a drain of the spool first :: rest, every record of rest is
accounted exactly once and the run ends in Normal on the empty spool,
but the size of the first record is never subtracted from
total_disk_size. -/
theorem C2_catchup_accounting (maxps : Nat) (first : Publish) (rest : List Publish)
    (m : Metrics) (sp : Storage) (hrl : sp.reloadErr = false) (hre : sp.readErr = false)
    (hfirst : first.payload.length ≤ maxps) (hsz : ∀ p ∈ rest, p.payload.length ≤ maxps)
    (hdisk : paySum rest ≤ m.total_disk_size)
    (hsent : m.total_sent_size + paySum rest ≤ usizeMax) :
    catchup maxps m (some { sp with spool := first :: rest })
      (List.replicate (rest.length + 1) CatchupEvent.sendOk) =
    .finished .normal
      { m with total_disk_size := m.total_disk_size - paySum rest,
               total_sent_size := m.total_sent_size + paySum rest }
      (some { sp with spool := [] }) := by
  have hread0 : read_from_storage (some { sp with spool := first :: rest }) maxps =
      .ok (some first, some { sp with spool := rest }) := by
    simp only [read_from_storage]
    simp only [hrl, Bool.false_eq_true, if_false, hre, false_or]
    rw [if_neg (not_lt.2 hfirst)]
  unfold catchup
  rw [hread0]
  exact catchupLoop_drain maxps rest first m sp hrl hre hsz hdisk hsent

/-- First and second records for the catchup accounting witness. -/
def pubA : Publish :=
  { topic := "a", qos := .atLeastOnce, retain := false, payload := [9, 9], pkid := 1 }

def pubB : Publish :=
  { topic := "b", qos := .atLeastOnce, retain := false, payload := [7, 7, 7], pkid := 1 }

/-- A fault-free spool template. -/
def stClean : Storage :=
  { spool := [], writeErr := false, flushErr := false, flushEvicts := false,
    reloadErr := false, readErr := false }

/-- Metrics accounting ten spooled bytes. -/
def mTen : Metrics := { Metrics.new "m" with total_disk_size := 10 }

/-- Witness for C2 amended: draining a two-record spool moves only the
3 bytes of the second record, leaving the 2 bytes of the first record
in total_disk_size forever. -/
theorem C2_catchup_accounting_witness :
    catchup 100 mTen (some { stClean with spool := pubA :: [pubB] })
      (List.replicate ([pubB].length + 1) CatchupEvent.sendOk) =
    .finished .normal
      { mTen with total_disk_size := mTen.total_disk_size - paySum [pubB],
                  total_sent_size := mTen.total_sent_size + paySum [pubB] }
      (some { stClean with spool := [] }) :=
  C2_catchup_accounting 100 pubA [pubB] mTen stClean rfl rfl (by decide) (by decide)
    (by decide) (by decide)

/-- The publish that write_to_storage spools for a package. -/
def crashPub (pkg : Package) : Publish :=
  { topic := pkg.topic, qos := .atLeastOnce, retain := false, payload := pkg.payload, pkid := 1 }

/-- The crash-mode write loop with a configured spool always returns
Ok and appends to the spool exactly the publishes derived from the
received packages (none at all when the packet writes fail). -/
theorem crashLoop_spool (incoming : List Package) (m : Metrics) (spl : List Publish)
    (w f fe rl re : Bool) :
    ∃ mr, crashLoop m (some ⟨spl, w, f, fe, rl, re⟩) incoming =
      .ok (mr, some ⟨spl ++ (if w then [] else incoming.map crashPub), w, f, fe, rl, re⟩) := by
  induction incoming generalizing m spl with
  | nil =>
    refine ⟨m, ?_⟩
    cases w <;> simp [crashLoop]
  | cons pkg rest ih =>
    cases w with
    | false =>
      have hwts : ∃ M, write_to_storage pkg m (some ⟨spl, false, f, fe, rl, re⟩) =
          .ok (M, some ⟨spl ++ [crashPub pkg], false, f, fe, rl, re⟩) := by
        simp only [write_to_storage, Bool.false_eq_true, if_false]
        split
        · exact ⟨_, rfl⟩
        · split
          · exact ⟨_, rfl⟩
          · exact ⟨_, rfl⟩
      obtain ⟨M, hwts⟩ := hwts
      obtain ⟨mr, hrest⟩ := ih M (spl ++ [crashPub pkg])
      refine ⟨mr, ?_⟩
      simp only [crashLoop, hwts]
      simpa [List.append_assoc] using hrest
    | true =>
      have hwts : write_to_storage pkg m (some ⟨spl, true, f, fe, rl, re⟩) =
          .ok ((get_payload pkg m).2, some ⟨spl, true, f, fe, rl, re⟩) := by
        simp [write_to_storage]
      obtain ⟨mr, hrest⟩ := ih ((get_payload pkg m).2) spl
      refine ⟨mr, ?_⟩
      simp only [crashLoop, hwts]
      simpa using hrest

/-- Claim C9: the publish handed to Serializer::crash is neither
published nor written to storage: crash only sets its pkid to 1 and
the run is otherwise independent of it, while the spool gains exactly
the publishes derived from the packages received after the crash
transition, so the in-flight packet is silently discarded. -/
theorem C9_crash_discards (p q : Publish) (incoming : List Package) (m : Metrics)
    (st : Storage) :
    crashRun p incoming m (some st) = crashRun q incoming m (some st) ∧
    ∃ mr, crashRun p incoming m (some st) =
      .ok (mr, some { st with
        spool := st.spool ++ (if st.writeErr then [] else incoming.map crashPub) }) := by
  obtain ⟨spl, w, f, fe, rl, re⟩ := st
  exact ⟨rfl, crashLoop_spool incoming m spl w f fe rl re⟩

/-- Well-formedness tying the DelayMap key map to the queue: every
queue key is below the fresh-key counter, and every map binding has a
queue entry with that key holding that item. -/
def DelayMap.WF {T : Type} [DecidableEq T] (d : DelayMap T) : Prop :=
  (∀ e ∈ d.queue.entries, e.1 < d.queue.nextKey) ∧
  (∀ b ∈ d.map, ∃ e ∈ d.queue.entries, e.1 = b.2 ∧ e.2.1 = b.1)

theorem assocLookup_erase {T : Type} [DecidableEq T] (m : List (T × Nat)) (item : T) :
    assocLookup (assocErase m item) item = none := by
  unfold assocLookup assocErase
  have hf : (m.filter (fun e => e.1 ≠ item)).find? (fun e => e.1 = item) = none := by
    rw [List.find?_eq_none]
    intro x hx
    obtain ⟨hmem, hne⟩ := List.mem_filter.1 hx
    simpa using of_decide_eq_true hne
  rw [hf]
  rfl

theorem assocLookup_mem {T : Type} [DecidableEq T] (m : List (T × Nat)) (item : T)
    (key : Nat) (h : assocLookup m item = some key) : (item, key) ∈ m := by
  unfold assocLookup at h
  cases hf : m.find? (fun e => e.1 = item) with
  | none => rw [hf] at h; simp at h
  | some e =>
    rw [hf] at h
    simp at h
    have hm : e ∈ m := List.mem_of_find?_eq_some hf
    have hp : e.1 = item := by simpa using List.find?_some hf
    have he : (item, key) = e := by
      rw [← hp, ← h]
    rw [he]
    exact hm

theorem find?_key_append_last {T : Type} (l : List (Nat × T × Nat)) (x : Nat × T × Nat)
    (k : Nat) (h : ∀ e ∈ l, e.1 ≠ k) (hx : x.1 = k) :
    (l ++ [x]).find? (fun e => e.1 = k) = some x := by
  induction l with
  | nil => simp [List.find?, hx]
  | cons a l ih =>
    have ha : a.1 ≠ k := h a (by simp)
    simp only [List.cons_append, List.find?, decide_eq_false ha]
    exact ih (fun e he => h e (by simp [he]))

theorem find?_key_reset {T : Type} (l : List (Nat × T × Nat)) (k period : Nat)
    (h : ∃ e ∈ l, e.1 = k) :
    ((l.map (fun e => if e.1 = k then (e.1, e.2.1, period) else e)).find?
      (fun e => e.1 = k)).map (fun e => e.2.2) = some period := by
  induction l with
  | nil => simp at h
  | cons a l ih =>
    by_cases hak : a.1 = k
    · simp [List.find?, hak]
    · obtain ⟨e, he, hek⟩ := h
      have hel : e ∈ l := by
        rcases List.mem_cons.1 he with rfl | hmem
        · exact absurd hek hak
        · exact hmem
      simp only [List.map_cons, if_neg hak, List.find?, decide_eq_false hak]
      exact ih ⟨e, hel, hek⟩

/-- Claim C6: DelayMap::update satisfies the compound contract on any
well-formed state: with remove set it deletes a present key returning
true and leaves the map untouched returning false on an absent key;
with remove unset it resets the deadline of a present key to the
period and inserts an absent key with the period, returning true, so
the key ends up bound with deadline equal to the period. -/
theorem C6_update_contract {T : Type} [DecidableEq T] (d : DelayMap T) (item : T)
    (period : Nat) (rmv : Bool) (hwf : d.WF) :
    ((d.update item period rmv).2 = !(rmv && !(d.contains item))) ∧
    (rmv = true → (d.update item period rmv).1.contains item = false) ∧
    (rmv = true → d.contains item = false → (d.update item period rmv).1 = d) ∧
    (rmv = false → (d.update item period rmv).1.contains item = true ∧
      (d.update item period rmv).1.deadlineOf item = some period) := by
  cases hlook : assocLookup d.map item with
  | none =>
    cases rmv with
    | true =>
      refine ⟨?_, ?_, ?_, ?_⟩
      · simp [DelayMap.update, DelayMap.contains, hlook]
      · intro _
        simp [DelayMap.update, DelayMap.contains, hlook]
      · intro _ _
        simp [DelayMap.update, hlook]
      · intro hf
        exact absurd hf (by simp)
    | false =>
      have hupd : d.update item period false =
          ({ queue := (d.queue.insert item period).2,
             map := assocInsert d.map item (d.queue.insert item period).1 }, true) := by
        simp [DelayMap.update, hlook]
      have hlook2 : assocLookup (assocInsert d.map item d.queue.nextKey) item =
          some d.queue.nextKey := by
        simp [assocLookup, assocInsert, List.find?]
      refine ⟨?_, ?_, ?_, ?_⟩
      · simp [hupd, DelayMap.contains, hlook]
      · intro hf
        exact absurd hf (by simp)
      · intro hf
        exact absurd hf (by simp)
      · intro _
        constructor
        · simp [hupd, DelayMap.contains, DelayQueue.insert, hlook2]
        · have hfresh : ∀ e ∈ d.queue.entries, e.1 ≠ d.queue.nextKey :=
            fun e he => Nat.ne_of_lt (hwf.1 e he)
          have hfind := find?_key_append_last d.queue.entries
            (d.queue.nextKey, item, period) d.queue.nextKey hfresh rfl
          rw [hupd]
          simp only [DelayMap.deadlineOf, DelayQueue.insert, hlook2]
          rw [hfind]
          rfl
  | some key =>
    have hctrue : d.contains item = true := by
      simp [DelayMap.contains, hlook]
    cases rmv with
    | true =>
      have hupd : d.update item period true =
          ({ queue := d.queue.removeKey key, map := assocErase d.map item }, true) := by
        simp [DelayMap.update, hlook]
      refine ⟨?_, ?_, ?_, ?_⟩
      · simp [hupd, hctrue]
      · intro _
        simp [hupd, DelayMap.contains, assocLookup_erase]
      · intro _ hf
        rw [hctrue] at hf
        exact absurd hf (by simp)
      · intro hf
        exact absurd hf (by simp)
    | false =>
      have hupd : d.update item period false =
          ({ d with queue := d.queue.reset key period }, true) := by
        simp [DelayMap.update, hlook]
      refine ⟨?_, ?_, ?_, ?_⟩
      · simp [hupd, hctrue]
      · intro hf
        exact absurd hf (by simp)
      · intro hf
        exact absurd hf (by simp)
      · intro _
        constructor
        · simp [hupd, DelayMap.contains, hlook]
        · have hmem : (item, key) ∈ d.map := assocLookup_mem d.map item key hlook
          obtain ⟨e, he, hek, hei⟩ := hwf.2 (item, key) hmem
          have hfind := find?_key_reset d.queue.entries key period ⟨e, he, hek⟩
          rw [hupd]
          simp only [DelayMap.deadlineOf, hlook, DelayQueue.reset]
          exact hfind

/-- Witness for C6 on the well-formed one-entry map: updating a
present key with remove unset resets its deadline to the period. -/
theorem C6_update_contract_witness :
    ((((DelayMap.new).insert "a" 5 : DelayMap String).update "a" 7 false).1.deadlineOf "a" =
      some 7) :=
  (((C6_update_contract ((DelayMap.new).insert "a" 5) "a" 7 false
    ⟨by decide, by decide⟩).2.2.2) rfl).2
